import Mathlib

/-!
Verification of the commit/issue reconciliation script (`versions.py`).

The script has two operations:
* `update`: for each queried issue, compute a new fix-version list by
  appending "3.0.0-alpha1" when absent and dropping every "3.0.0-alpha2".
* `validate`: build a skip set from an ignore list plus detected revert
  pairs and merge commits, index commits by JIRA key (fixups override the
  message; otherwise a leading issue-key pattern, then an anchored revert
  pattern), and reconcile the index against the queried issues.

Strings are modelled as `List Char`; the regular expressions of the script
are modelled by explicit executable matchers with the same semantics
(anchored `match` vs scanning `search`, greedy character classes).
-/

/-- Issue keys, commit identifiers and message fragments are character lists. -/
abbrev Key := List Char

/-- A commit as pickled by the script: identifier and message. -/
structure Commit where
  hexsha : Key
  message : Key
deriving DecidableEq, Repr

/-- An issue as pickled by the script: only its key is used. -/
structure Issue where
  key : Key
deriving DecidableEq, Repr

/-- A fixup value is either a single JIRA key or a list of keys
(the YAML value may have either dynamic shape). -/
inductive FixVal where
  | one : Key → FixVal
  | several : List Key → FixVal
deriving DecidableEq, Repr

/-- The character class `[0-9a-f]` of the revert pattern. -/
def isHexLower (c : Char) : Bool :=
  decide ('0' ≤ c ∧ c ≤ '9') || decide ('a' ≤ c ∧ c ≤ 'f')

/-- The character class `[a-zA-Z0-9-]` of the merge pattern. -/
def isBranchChar (c : Char) : Bool :=
  c.isAlphanum || decide (c = '-')

/-- The ASCII single-quote character used by the merge pattern. -/
def quoteChar : Char := Char.ofNat 39

/-- The literal part of the revert pattern `This reverts commit ([0-9a-f]+)`. -/
def revertLit : Key := "This reverts commit ".toList

/-- Anchored match of `This reverts commit ([0-9a-f]+)` at the start of `s`
(python `revert_pattern.match`); returns group 1, the greedy hex run. -/
def revertMatchAt (s : Key) : Option Key :=
  if revertLit.isPrefixOf s then
    let hex := (s.drop revertLit.length).takeWhile isHexLower
    if hex.isEmpty then none else some hex
  else none

/-- Scanning search of the revert pattern (python `revert_pattern.search`):
group 1 of the leftmost match. -/
def revertSearch : Key → Option Key
  | [] => none
  | c :: t =>
    match revertMatchAt (c :: t) with
    | some h => some h
    | none => revertSearch t

/-- First literal of the merge pattern: `Merge branch '`. -/
def mergeLit1 : Key := "Merge branch ".toList ++ [quoteChar]

/-- Second literal of the merge pattern: `' into `. -/
def mergeLit2 : Key := quoteChar :: " into ".toList

/-- Anchored match of `Merge branch '[a-zA-Z0-9-]+' into [a-zA-Z0-9-]+`. -/
def mergeMatchAt (s : Key) : Bool :=
  if mergeLit1.isPrefixOf s then
    let r1 := s.drop mergeLit1.length
    let name1 := r1.takeWhile isBranchChar
    if name1.isEmpty then false
    else
      let r2 := r1.drop name1.length
      if mergeLit2.isPrefixOf r2 then
        !((r2.drop mergeLit2.length).takeWhile isBranchChar).isEmpty
      else false
  else false

/-- Scanning search of the merge pattern (python `merge_pattern.search`). -/
def mergeSearch : Key → Bool
  | [] => false
  | c :: t => mergeMatchAt (c :: t) || mergeSearch t

/-- The four project prefixes of the issue-key pattern
`(HADOOP|HDFS|MAPREDUCE|YARN)-[0-9]+`. -/
def projectNames : List Key :=
  ["HADOOP".toList, "HDFS".toList, "MAPREDUCE".toList, "YARN".toList]

/-- Anchored match of `P-[0-9]+` for one project name `p`; returns group 0. -/
def issueMatchWith (p s : Key) : Option Key :=
  if p.isPrefixOf s then
    match s.drop p.length with
    | '-' :: rest =>
      let ds := rest.takeWhile Char.isDigit
      if ds.isEmpty then none else some (p ++ '-' :: ds)
    | _ => none
  else none

/-- Anchored match of the issue-key pattern at the start of a message
(python `pattern.match`); the alternatives are mutually exclusive. -/
def issueMatch (s : Key) : Option Key :=
  projectNames.findSome? (fun p => issueMatchWith p s)

/-- The identifiers of a commit list (`[c.hexsha for c in commits]`). -/
def hexshas (commits : List Commit) : List Key :=
  commits.map (fun c => c.hexsha)

/-- One step of the revert filter: when the message contains the revert
pattern and the reverted identifier is present among the commits, both the
reverting and the reverted identifiers join the skip set. -/
def revertStep (allCommits : List Commit) (acc : List Key) (c : Commit) : List Key :=
  match revertSearch c.message with
  | some h => if h ∈ hexshas allCommits then acc ++ [c.hexsha, h] else acc
  | none => acc

/-- One step of the merge filter: a merge commit always joins the skip set. -/
def mergeStep (acc : List Key) (c : Commit) : List Key :=
  if mergeSearch c.message then acc ++ [c.hexsha] else acc

/-- The skip set `to_skip`: the ignore list, then the revert filter,
then the merge filter. Modelled as a list; only membership matters. -/
def toSkip (ignore : List Key) (commits : List Commit) : List Key :=
  commits.foldl mergeStep (commits.foldl (revertStep commits) ignore)

/-- Dictionary lookup in the fixup table (`fixups.get(commit.hexsha)`). -/
def lookupFix : List (Key × FixVal) → Key → Option FixVal
  | [], _ => none
  | p :: t, h => if p.1 = h then some p.2 else lookupFix t h

/-- Normalise a fixup value to the `jira_ids` list of the script: a single
key becomes a one-element list; an empty list is falsy and acts like no
fixup at all (`if not jira_ids`). -/
def fixupIds (fix : Option FixVal) : Option (List Key) :=
  match fix with
  | some (FixVal.one k) => some [k]
  | some (FixVal.several l) => if l.isEmpty then none else some l
  | none => none

/-- Lookup in the commit index (`commits_by_id.get(jira_id, [])`). -/
def lookupIdx : List (Key × List Commit) → Key → List Commit
  | [], _ => []
  | p :: t, k => if p.1 = k then p.2 else lookupIdx t k

/-- Append `c` under key `k` in the commit index
(`commits_by_id[jira_id] = commits_by_id.get(jira_id, []) + [commit]`). -/
def upsert : List (Key × List Commit) → Key → Commit → List (Key × List Commit)
  | [], k, c => [(k, [c])]
  | p :: t, k, c => if p.1 = k then (p.1, p.2 ++ [c]) :: t else p :: upsert t k c

/-- Whether the index has an entry for `k` (`jira_id in commits_by_id`). -/
def hasKey : List (Key × List Commit) → Key → Bool
  | [], _ => false
  | p :: t, k => decide (p.1 = k) || hasKey t k

/-- State of the indexing loop: the commit index and the unidentified list. -/
structure IndexState where
  idx : List (Key × List Commit)
  unid : List Commit
deriving DecidableEq, Repr

/-- One iteration of the indexing loop. The fixup lookup comes first; only
when it yields nothing is the skip set consulted, then the anchored
issue-key pattern, then the anchored revert pattern, whose group 0 — the
whole matched text — becomes the key; otherwise the commit is unidentified. -/
def indexStep (fixups : List (Key × FixVal)) (skip : List Key)
    (st : IndexState) (c : Commit) : IndexState :=
  match fixupIds (lookupFix fixups c.hexsha) with
  | some ids => ⟨ids.foldl (fun i k => upsert i k c) st.idx, st.unid⟩
  | none =>
    if c.hexsha ∈ skip then st
    else
      match issueMatch c.message with
      | some k => ⟨upsert st.idx k c, st.unid⟩
      | none =>
        match revertMatchAt c.message with
        | some hex => ⟨upsert st.idx (revertLit ++ hex) c, st.unid⟩
        | none => ⟨st.idx, st.unid ++ [c]⟩

/-- The whole indexing loop over the commit list. -/
def buildIndex (fixups : List (Key × FixVal)) (skip : List Key)
    (commits : List Commit) : IndexState :=
  commits.foldl (indexStep fixups skip) ⟨[], []⟩

/-- The issue keys named by one fixup value (no falsy normalisation here:
the registration loop iterates the raw value). -/
def fixVals (v : FixVal) : List Key :=
  match v with
  | FixVal.one k => [k]
  | FixVal.several l => l

/-- All issue keys declared by fixup entries, registered into
`issues_by_id` before the queried issues. -/
def fixupKeys (fixups : List (Key × FixVal)) : List Key :=
  fixups.foldl (fun acc p => acc ++ fixVals p.2) []

/-- The key set of `issues_by_id`: fixup-declared keys plus queried keys. -/
def knownIssueKeys (fixups : List (Key × FixVal)) (issues : List Issue) : List Key :=
  fixupKeys fixups ++ issues.map (fun i => i.key)

/-- Everything the validate run computes that the reconciliation report and
the return value depend on. -/
structure ValidateResult where
  skip : List Key
  idx : List (Key × List Commit)
  unid : List Commit
  imc : List Issue
  cmi : List (Key × List Commit)
  ret : Nat
deriving Repr

/-- The pure core of `ValidateRunner.run`: skip set, commit index,
unidentified commits, issues missing commits, commits missing issues, and
the returned status (1 when any discrepancy was counted, else 0). -/
def validateRun (fixups : List (Key × FixVal)) (ignore : List Key)
    (ignoreJiras : List Key) (commits : List Commit) (issues : List Issue) :
    ValidateResult :=
  let skip := toSkip ignore commits
  let st := buildIndex fixups skip commits
  let known := knownIssueKeys fixups issues
  let imc := issues.filter
    (fun i => !(hasKey st.idx i.key) && !(decide (i.key ∈ ignoreJiras)))
  let cmi := st.idx.filter (fun p => !(decide (p.1 ∈ known)))
  let numIssues := st.unid.length + imc.length + cmi.length
  ⟨skip, st.idx, st.unid, imc, cmi, if numIssues > 0 then 1 else 0⟩

/-- A commit occurs somewhere in the commit index. -/
def InIndex (idx : List (Key × List Commit)) (c : Commit) : Prop :=
  ∃ p ∈ idx, c ∈ p.2

instance (idx : List (Key × List Commit)) (c : Commit) : Decidable (InIndex idx c) :=
  inferInstanceAs (Decidable (∃ p ∈ idx, c ∈ p.2))

/-- The target fix version added by the update operation. -/
def alpha1 : Key := "3.0.0-alpha1".toList

/-- The superseded fix version removed by the update operation. -/
def alpha2 : Key := "3.0.0-alpha2".toList

/-- The per-issue label computation of `UpdateRunner.run`: append
"3.0.0-alpha1" when absent, then drop every "3.0.0-alpha2". -/
def updateFixVersions (fixVersions : List Key) : List Key :=
  let withNew := if alpha1 ∈ fixVersions then fixVersions else fixVersions ++ [alpha1]
  withNew.filter (fun v => !(decide (v = alpha2)))

/-! Lemmas about the commit index operations. -/

theorem lookupIdx_upsert_self (idx : List (Key × List Commit)) (k : Key) (c : Commit) :
    c ∈ lookupIdx (upsert idx k c) k := by
  induction idx with
  | nil => simp [upsert, lookupIdx]
  | cons p t ih =>
    by_cases h : p.1 = k
    · simp [upsert, lookupIdx, h]
    · simp [upsert, lookupIdx, h, ih]

theorem upsert_cons (p : Key × List Commit) (t : List (Key × List Commit))
    (k : Key) (c : Commit) :
    upsert (p :: t) k c =
      if p.1 = k then (p.1, p.2 ++ [c]) :: t else p :: upsert t k c := rfl

theorem lookupIdx_cons (p : Key × List Commit) (t : List (Key × List Commit)) (k : Key) :
    lookupIdx (p :: t) k = if p.1 = k then p.2 else lookupIdx t k := rfl

theorem mem_lookupIdx_upsert (idx : List (Key × List Commit)) (k k2 : Key) (c c2 : Commit)
    (h : c ∈ lookupIdx idx k) : c ∈ lookupIdx (upsert idx k2 c2) k := by
  induction idx with
  | nil => simp [lookupIdx] at h
  | cons p t ih =>
    rw [upsert_cons]
    by_cases h2 : p.1 = k2
    · rw [if_pos h2]
      by_cases h1 : p.1 = k
      · rw [lookupIdx_cons, if_pos h1] at h
        rw [lookupIdx_cons ((p.1, p.2 ++ [c2])) t k, if_pos h1]
        exact List.mem_append_left _ h
      · rw [lookupIdx_cons, if_neg h1] at h
        rw [lookupIdx_cons ((p.1, p.2 ++ [c2])) t k, if_neg h1]
        exact h
    · rw [if_neg h2]
      by_cases h1 : p.1 = k
      · rw [lookupIdx_cons, if_pos h1] at h
        rw [lookupIdx_cons, if_pos h1]
        exact h
      · rw [lookupIdx_cons, if_neg h1] at h
        rw [lookupIdx_cons, if_neg h1]
        exact ih h

theorem inIndex_of_upsert (idx : List (Key × List Commit)) (k : Key) (c x : Commit)
    (h : InIndex (upsert idx k c) x) : InIndex idx x ∨ x = c := by
  induction idx with
  | nil =>
    obtain ⟨q, hq, hx⟩ : ∃ q ∈ [(k, [c])], x ∈ q.2 := h
    rw [List.mem_singleton] at hq
    subst hq
    exact Or.inr (List.mem_singleton.mp hx)
  | cons p t ih =>
    rw [upsert_cons] at h
    by_cases h1 : p.1 = k
    · rw [if_pos h1] at h
      obtain ⟨q, hq, hx⟩ : ∃ q ∈ (p.1, p.2 ++ [c]) :: t, x ∈ q.2 := h
      rcases List.mem_cons.mp hq with hq | hq
      · subst hq
        rcases List.mem_append.mp hx with hx | hx
        · exact Or.inl ⟨p, List.mem_cons_self p t, hx⟩
        · exact Or.inr (List.mem_singleton.mp hx)
      · exact Or.inl ⟨q, List.mem_cons_of_mem p hq, hx⟩
    · rw [if_neg h1] at h
      obtain ⟨q, hq, hx⟩ : ∃ q ∈ p :: upsert t k c, x ∈ q.2 := h
      rcases List.mem_cons.mp hq with hq | hq
      · exact Or.inl ⟨p, List.mem_cons_self p t, hq ▸ hx⟩
      · rcases ih ⟨q, hq, hx⟩ with h2 | h2
        · obtain ⟨r, hr, hx2⟩ := h2
          exact Or.inl ⟨r, List.mem_cons_of_mem p hr, hx2⟩
        · exact Or.inr h2

theorem mem_lookupIdx_foldl_upsert (ids : List Key) (c2 : Commit) (k : Key) (c : Commit) :
    ∀ idx, c ∈ lookupIdx idx k →
      c ∈ lookupIdx (ids.foldl (fun i k2 => upsert i k2 c2) idx) k := by
  induction ids with
  | nil => intro idx h; exact h
  | cons a t ih =>
    intro idx h
    exact ih (upsert idx a c2) (mem_lookupIdx_upsert idx k a c c2 h)

theorem lookupIdx_foldl_upsert_self (ids : List Key) (c : Commit) (k : Key) (hk : k ∈ ids) :
    ∀ idx, c ∈ lookupIdx (ids.foldl (fun i k2 => upsert i k2 c) idx) k := by
  induction ids with
  | nil => cases hk
  | cons a t ih =>
    intro idx
    rcases List.mem_cons.mp hk with h | h
    · subst h
      exact mem_lookupIdx_foldl_upsert t c k c (upsert idx k c) (lookupIdx_upsert_self idx k c)
    · exact ih h (upsert idx a c)

theorem inIndex_of_foldl_upsert (ids : List Key) (c x : Commit) :
    ∀ idx, InIndex (ids.foldl (fun i k2 => upsert i k2 c) idx) x →
      InIndex idx x ∨ x = c := by
  induction ids with
  | nil => intro idx h; exact Or.inl h
  | cons a t ih =>
    intro idx h
    rcases ih (upsert idx a c) h with h2 | h2
    · exact inIndex_of_upsert idx a c x h2
    · exact Or.inr h2

/-! Branch lemmas for one iteration of the indexing loop. -/

theorem indexStep_fix (f : List (Key × FixVal)) (s : List Key) (st : IndexState)
    (c : Commit) (ids : List Key) (hf : fixupIds (lookupFix f c.hexsha) = some ids) :
    indexStep f s st c = ⟨ids.foldl (fun i k => upsert i k c) st.idx, st.unid⟩ := by
  unfold indexStep
  rw [hf]

theorem indexStep_skip (f : List (Key × FixVal)) (s : List Key) (st : IndexState)
    (c : Commit) (hf : fixupIds (lookupFix f c.hexsha) = none) (hs : c.hexsha ∈ s) :
    indexStep f s st c = st := by
  unfold indexStep
  rw [hf]
  exact if_pos hs

theorem indexStep_issue (f : List (Key × FixVal)) (s : List Key) (st : IndexState)
    (c : Commit) (k : Key) (hf : fixupIds (lookupFix f c.hexsha) = none)
    (hs : c.hexsha ∉ s) (hm : issueMatch c.message = some k) :
    indexStep f s st c = ⟨upsert st.idx k c, st.unid⟩ := by
  unfold indexStep
  rw [hf]
  rw [if_neg hs]
  rw [hm]

theorem indexStep_revert (f : List (Key × FixVal)) (s : List Key) (st : IndexState)
    (c : Commit) (hex : Key) (hf : fixupIds (lookupFix f c.hexsha) = none)
    (hs : c.hexsha ∉ s) (hm : issueMatch c.message = none)
    (hr : revertMatchAt c.message = some hex) :
    indexStep f s st c = ⟨upsert st.idx (revertLit ++ hex) c, st.unid⟩ := by
  unfold indexStep
  rw [hf]
  rw [if_neg hs]
  rw [hm]
  rw [hr]

theorem indexStep_unid (f : List (Key × FixVal)) (s : List Key) (st : IndexState)
    (c : Commit) (hf : fixupIds (lookupFix f c.hexsha) = none)
    (hs : c.hexsha ∉ s) (hm : issueMatch c.message = none)
    (hr : revertMatchAt c.message = none) :
    indexStep f s st c = ⟨st.idx, st.unid ++ [c]⟩ := by
  unfold indexStep
  rw [hf]
  rw [if_neg hs]
  rw [hm]
  rw [hr]

theorem inIndex_of_indexStep (f : List (Key × FixVal)) (s : List Key) (st : IndexState)
    (d x : Commit) (h : InIndex (indexStep f s st d).idx x) :
    InIndex st.idx x ∨ x = d := by
  cases hf : fixupIds (lookupFix f d.hexsha) with
  | some ids =>
    rw [indexStep_fix f s st d ids hf] at h
    exact inIndex_of_foldl_upsert ids d x st.idx h
  | none =>
    by_cases hs : d.hexsha ∈ s
    · rw [indexStep_skip f s st d hf hs] at h
      exact Or.inl h
    · cases hm : issueMatch d.message with
      | some k =>
        rw [indexStep_issue f s st d k hf hs hm] at h
        exact inIndex_of_upsert st.idx k d x h
      | none =>
        cases hr : revertMatchAt d.message with
        | some hex =>
          rw [indexStep_revert f s st d hex hf hs hm hr] at h
          exact inIndex_of_upsert st.idx (revertLit ++ hex) d x h
        | none =>
          rw [indexStep_unid f s st d hf hs hm hr] at h
          exact Or.inl h

theorem mem_unid_of_indexStep (f : List (Key × FixVal)) (s : List Key) (st : IndexState)
    (d x : Commit) (h : x ∈ (indexStep f s st d).unid) :
    x ∈ st.unid ∨ x = d := by
  cases hf : fixupIds (lookupFix f d.hexsha) with
  | some ids =>
    rw [indexStep_fix f s st d ids hf] at h
    exact Or.inl h
  | none =>
    by_cases hs : d.hexsha ∈ s
    · rw [indexStep_skip f s st d hf hs] at h
      exact Or.inl h
    · cases hm : issueMatch d.message with
      | some k =>
        rw [indexStep_issue f s st d k hf hs hm] at h
        exact Or.inl h
      | none =>
        cases hr : revertMatchAt d.message with
        | some hex =>
          rw [indexStep_revert f s st d hex hf hs hm hr] at h
          exact Or.inl h
        | none =>
          rw [indexStep_unid f s st d hf hs hm hr] at h
          rcases List.mem_append.mp h with h2 | h2
          · exact Or.inl h2
          · exact Or.inr (List.mem_singleton.mp h2)

theorem mem_lookupIdx_indexStep (f : List (Key × FixVal)) (s : List Key) (st : IndexState)
    (d : Commit) (k : Key) (x : Commit) (h : x ∈ lookupIdx st.idx k) :
    x ∈ lookupIdx (indexStep f s st d).idx k := by
  cases hf : fixupIds (lookupFix f d.hexsha) with
  | some ids =>
    rw [indexStep_fix f s st d ids hf]
    exact mem_lookupIdx_foldl_upsert ids d k x st.idx h
  | none =>
    by_cases hs : d.hexsha ∈ s
    · rw [indexStep_skip f s st d hf hs]
      exact h
    · cases hm : issueMatch d.message with
      | some k2 =>
        rw [indexStep_issue f s st d k2 hf hs hm]
        exact mem_lookupIdx_upsert st.idx k k2 x d h
      | none =>
        cases hr : revertMatchAt d.message with
        | some hex =>
          rw [indexStep_revert f s st d hex hf hs hm hr]
          exact mem_lookupIdx_upsert st.idx k (revertLit ++ hex) x d h
        | none =>
          rw [indexStep_unid f s st d hf hs hm hr]
          exact h

/-! Invariants over the whole indexing loop. -/

theorem mem_lookupIdx_foldl_steps (f : List (Key × FixVal)) (s : List Key)
    (l : List Commit) (k : Key) (x : Commit) :
    ∀ st, x ∈ lookupIdx st.idx k →
      x ∈ lookupIdx (l.foldl (indexStep f s) st).idx k := by
  induction l with
  | nil => intro st h; exact h
  | cons d t ih =>
    intro st h
    exact ih _ (mem_lookupIdx_indexStep f s st d k x h)

theorem not_inIndex_foldl_steps (f : List (Key × FixVal)) (s : List Key)
    (l : List Commit) (c : Commit) (hf : fixupIds (lookupFix f c.hexsha) = none)
    (hs : c.hexsha ∈ s) :
    ∀ st, ¬ InIndex st.idx c → ¬ InIndex (l.foldl (indexStep f s) st).idx c := by
  induction l with
  | nil => intro st h; exact h
  | cons d t ih =>
    intro st h
    apply ih
    intro h2
    rcases inIndex_of_indexStep f s st d c h2 with h3 | h3
    · exact h h3
    · subst h3
      rw [indexStep_skip f s st c hf hs] at h2
      exact h h2

theorem not_mem_unid_foldl_steps (f : List (Key × FixVal)) (s : List Key)
    (l : List Commit) (c : Commit) (hf : fixupIds (lookupFix f c.hexsha) = none)
    (hs : c.hexsha ∈ s) :
    ∀ st, c ∉ st.unid → c ∉ (l.foldl (indexStep f s) st).unid := by
  induction l with
  | nil => intro st h; exact h
  | cons d t ih =>
    intro st h
    apply ih
    intro h2
    rcases mem_unid_of_indexStep f s st d c h2 with h3 | h3
    · exact h h3
    · subst h3
      rw [indexStep_skip f s st c hf hs] at h2
      exact h h2

/-! Lemmas about the skip set. -/

theorem revertStep_hit (all : List Commit) (acc : List Key) (c : Commit) (h : Key)
    (hm : revertSearch c.message = some h) (hp : h ∈ hexshas all) :
    revertStep all acc c = acc ++ [c.hexsha, h] := by
  unfold revertStep
  rw [hm]
  exact if_pos hp

theorem revertStep_miss (all : List Commit) (acc : List Key) (c : Commit) (h : Key)
    (hm : revertSearch c.message = some h) (hp : h ∉ hexshas all) :
    revertStep all acc c = acc := by
  unfold revertStep
  rw [hm]
  exact if_neg hp

theorem revertStep_mono (all : List Commit) (acc : List Key) (c : Commit) (x : Key)
    (h : x ∈ acc) : x ∈ revertStep all acc c := by
  unfold revertStep
  cases revertSearch c.message with
  | none => exact h
  | some h2 =>
    show x ∈ if h2 ∈ hexshas all then acc ++ [c.hexsha, h2] else acc
    by_cases hp : h2 ∈ hexshas all
    · rw [if_pos hp]
      exact List.mem_append_left _ h
    · rw [if_neg hp]
      exact h

theorem mergeStep_hit (acc : List Key) (c : Commit) (hm : mergeSearch c.message = true) :
    mergeStep acc c = acc ++ [c.hexsha] := by
  unfold mergeStep
  rw [hm]
  rfl

theorem mergeStep_mono (acc : List Key) (c : Commit) (x : Key) (h : x ∈ acc) :
    x ∈ mergeStep acc c := by
  unfold mergeStep
  by_cases hm : mergeSearch c.message = true
  · rw [if_pos hm]
    exact List.mem_append_left _ h
  · rw [if_neg hm]
    exact h

theorem mem_foldl_revertStep (all : List Commit) (l : List Commit) (x : Key) :
    ∀ acc, x ∈ acc → x ∈ l.foldl (revertStep all) acc := by
  induction l with
  | nil => intro acc h; exact h
  | cons d t ih =>
    intro acc h
    exact ih _ (revertStep_mono all acc d x h)

theorem mem_foldl_mergeStep (l : List Commit) (x : Key) :
    ∀ acc, x ∈ acc → x ∈ l.foldl mergeStep acc := by
  induction l with
  | nil => intro acc h; exact h
  | cons d t ih =>
    intro acc h
    exact ih _ (mergeStep_mono acc d x h)

theorem mem_toSkip_of_mem_ignore (ignore : List Key) (commits : List Commit) (x : Key)
    (h : x ∈ ignore) : x ∈ toSkip ignore commits := by
  unfold toSkip
  exact mem_foldl_mergeStep commits x _ (mem_foldl_revertStep commits commits x ignore h)

theorem revert_mem_toSkip (ignore : List Key) (commits : List Commit) (c : Commit)
    (hc : c ∈ commits) (h : Key) (hm : revertSearch c.message = some h)
    (hp : h ∈ hexshas commits) :
    c.hexsha ∈ toSkip ignore commits ∧ h ∈ toSkip ignore commits := by
  obtain ⟨l1, l2, he⟩ := List.append_of_mem hc
  have key : ∀ x, x ∈ ([c.hexsha, h] : List Key) → x ∈ toSkip ignore commits := by
    intro x hx
    unfold toSkip
    apply mem_foldl_mergeStep commits x
    nth_rewrite 2 [he]
    rw [List.foldl_append, List.foldl_cons]
    rw [revertStep_hit commits _ c h hm hp]
    exact mem_foldl_revertStep commits l2 x _ (List.mem_append_right _ hx)
  exact ⟨key c.hexsha (by simp), key h (by simp)⟩

theorem merge_mem_toSkip (ignore : List Key) (commits : List Commit) (c : Commit)
    (hc : c ∈ commits) (hm : mergeSearch c.message = true) :
    c.hexsha ∈ toSkip ignore commits := by
  obtain ⟨l1, l2, he⟩ := List.append_of_mem hc
  unfold toSkip
  nth_rewrite 3 [he]
  rw [List.foldl_append, List.foldl_cons]
  rw [mergeStep_hit _ c hm]
  exact mem_foldl_mergeStep l2 c.hexsha _ (List.mem_append_right _ (by simp))

/-! Decomposition and projection lemmas for the validate run. -/

theorem buildIndex_split (f : List (Key × FixVal)) (s : List Key)
    (l1 l2 : List Commit) (c : Commit) :
    buildIndex f s (l1 ++ c :: l2) =
      l2.foldl (indexStep f s) (indexStep f s (buildIndex f s l1) c) := by
  unfold buildIndex
  rw [List.foldl_append, List.foldl_cons]

theorem validateRun_skip (f : List (Key × FixVal)) (ig ij : List Key)
    (cs : List Commit) (is : List Issue) :
    (validateRun f ig ij cs is).skip = toSkip ig cs := rfl

theorem validateRun_idx (f : List (Key × FixVal)) (ig ij : List Key)
    (cs : List Commit) (is : List Issue) :
    (validateRun f ig ij cs is).idx = (buildIndex f (toSkip ig cs) cs).idx := rfl

theorem validateRun_unid (f : List (Key × FixVal)) (ig ij : List Key)
    (cs : List Commit) (is : List Issue) :
    (validateRun f ig ij cs is).unid = (buildIndex f (toSkip ig cs) cs).unid := rfl

theorem validateRun_imc (f : List (Key × FixVal)) (ig ij : List Key)
    (cs : List Commit) (is : List Issue) :
    (validateRun f ig ij cs is).imc =
      is.filter (fun i => !(hasKey (buildIndex f (toSkip ig cs) cs).idx i.key) &&
        !(decide (i.key ∈ ij))) := rfl

theorem validateRun_cmi (f : List (Key × FixVal)) (ig ij : List Key)
    (cs : List Commit) (is : List Issue) :
    (validateRun f ig ij cs is).cmi =
      (buildIndex f (toSkip ig cs) cs).idx.filter
        (fun p => !(decide (p.1 ∈ knownIssueKeys f is))) := rfl

theorem validateRun_ret (f : List (Key × FixVal)) (ig ij : List Key)
    (cs : List Commit) (is : List Issue) :
    (validateRun f ig ij cs is).ret =
      if (validateRun f ig ij cs is).unid.length + (validateRun f ig ij cs is).imc.length +
          (validateRun f ig ij cs is).cmi.length > 0 then 1 else 0 := rfl

/-! Lemmas about the update operation's label computation. -/

theorem mem_updateFixVersions (vs : List Key) (x : Key) :
    x ∈ updateFixVersions vs ↔ x = alpha1 ∨ (x ∈ vs ∧ x ≠ alpha2) := by
  have hne : alpha1 ≠ alpha2 := by decide
  show x ∈ (if alpha1 ∈ vs then vs else vs ++ [alpha1]).filter
      (fun v => !(decide (v = alpha2))) ↔ _
  by_cases h : alpha1 ∈ vs
  · rw [if_pos h]
    simp only [List.mem_filter, Bool.not_eq_true', decide_eq_false_iff_not]
    constructor
    · rintro ⟨hx, hx2⟩
      exact Or.inr ⟨hx, hx2⟩
    · rintro (rfl | ⟨hx, hx2⟩)
      · exact ⟨h, hne⟩
      · exact ⟨hx, hx2⟩
  · rw [if_neg h]
    simp only [List.mem_filter, List.mem_append, List.mem_singleton, Bool.not_eq_true',
      decide_eq_false_iff_not]
    constructor
    · rintro ⟨hx | rfl, hx2⟩
      · exact Or.inr ⟨hx, hx2⟩
      · exact Or.inl rfl
    · rintro (rfl | ⟨hx, hx2⟩)
      · exact ⟨Or.inr rfl, hne⟩
      · exact ⟨Or.inl hx, hx2⟩

theorem filter_idem {α : Type} (p : α → Bool) (l : List α) :
    (l.filter p).filter p = l.filter p := by
  induction l with
  | nil => rfl
  | cons a t ih =>
    by_cases h : p a = true
    · rw [List.filter_cons_of_pos h, List.filter_cons_of_pos h, ih]
    · rw [List.filter_cons_of_neg h, ih]

theorem not_inIndex_nil (c : Commit) : ¬ InIndex ([] : List (Key × List Commit)) c := by
  intro h
  obtain ⟨p, hp, _⟩ := h
  exact List.not_mem_nil p hp

/-- Claim C1, counterexample: the claim as stated is false on the code. A
commit whose message matches the merge-branch pattern but that has a fixup
entry is indexed under the fixup key, because the fixup lookup precedes the
skip-set check: the merge commit `m1` with fixup `HADOOP-1` appears in the
commit index. -/
theorem C1_counterexample :
    mergeSearch ("Merge branch ".toList ++ quoteChar :: "feature".toList ++
      quoteChar :: " into trunk".toList) = true ∧
    InIndex (validateRun [("m1".toList, FixVal.one "HADOOP-1".toList)] [] []
      [⟨"m1".toList, "Merge branch ".toList ++ quoteChar :: "feature".toList ++
        quoteChar :: " into trunk".toList⟩] []).idx
      ⟨"m1".toList, "Merge branch ".toList ++ quoteChar :: "feature".toList ++
        quoteChar :: " into trunk".toList⟩ := by decide

/-- Claim C1, amended: every commit whose message matches the merge-branch
pattern is added to the skip set, and is excluded from the commit index
whenever no fixup entry exists for its identifier; a fixup entry overrides
the merge exclusion. -/
theorem C1_theorem (f : List (Key × FixVal)) (ig ij : List Key) (cs : List Commit)
    (is : List Issue) (c : Commit) (hc : c ∈ cs) (hm : mergeSearch c.message = true)
    (hf : fixupIds (lookupFix f c.hexsha) = none) :
    c.hexsha ∈ (validateRun f ig ij cs is).skip ∧
    ¬ InIndex (validateRun f ig ij cs is).idx c := by
  have hs : c.hexsha ∈ toSkip ig cs := merge_mem_toSkip ig cs c hc hm
  constructor
  · rw [validateRun_skip]
    exact hs
  · rw [validateRun_idx]
    unfold buildIndex
    exact not_inIndex_foldl_steps f (toSkip ig cs) cs c hf hs _ (not_inIndex_nil c)

/-- Witness for C1's amended theorem at a concrete input: a lone merge commit
with no fixup entry lands in the skip set and not in the index. -/
theorem C1_witness :
    mergeSearch ("Merge branch ".toList ++ quoteChar :: "a".toList ++
      quoteChar :: " into b".toList) = true ∧
    ("mm".toList ∈ (validateRun [] [] []
      [⟨"mm".toList, "Merge branch ".toList ++ quoteChar :: "a".toList ++
        quoteChar :: " into b".toList⟩] []).skip ∧
    ¬ InIndex (validateRun [] [] []
      [⟨"mm".toList, "Merge branch ".toList ++ quoteChar :: "a".toList ++
        quoteChar :: " into b".toList⟩] []).idx
      ⟨"mm".toList, "Merge branch ".toList ++ quoteChar :: "a".toList ++
        quoteChar :: " into b".toList⟩) :=
  ⟨by decide, C1_theorem [] [] []
    [⟨"mm".toList, "Merge branch ".toList ++ quoteChar :: "a".toList ++
      quoteChar :: " into b".toList⟩] []
    ⟨"mm".toList, "Merge branch ".toList ++ quoteChar :: "a".toList ++
      quoteChar :: " into b".toList⟩ (by decide) (by decide) (by decide)⟩

/-- Claim C2, counterexample: the parenthetical "and hence excluded from the
commit index" fails when a fixup entry exists. Commit `aa` reverts `bb`,
both land in the skip set, yet `aa` (with fixup `HADOOP-2`) is indexed. -/
theorem C2_counterexample :
    revertSearch "This reverts commit bb".toList = some "bb".toList ∧
    "bb".toList ∈ hexshas [⟨"aa".toList, "This reverts commit bb".toList⟩,
      ⟨"bb".toList, "fix stuff".toList⟩] ∧
    "aa".toList ∈ (validateRun [("aa".toList, FixVal.one "HADOOP-2".toList)] [] []
      [⟨"aa".toList, "This reverts commit bb".toList⟩,
       ⟨"bb".toList, "fix stuff".toList⟩] []).skip ∧
    InIndex (validateRun [("aa".toList, FixVal.one "HADOOP-2".toList)] [] []
      [⟨"aa".toList, "This reverts commit bb".toList⟩,
       ⟨"bb".toList, "fix stuff".toList⟩] []).idx
      ⟨"aa".toList, "This reverts commit bb".toList⟩ := by decide

/-- Claim C2, amended: for a commit C whose message contains "This reverts
commit H": when H is the identifier of a commit of the input, both C's
identifier and H are placed in the skip set, and C as well as every commit
with identifier H is excluded from the commit index provided it has no
fixup entry; when H is not an identifier of the input, C's iteration of the
revert-filter pass leaves the skip set unchanged. -/
theorem C2_theorem (f : List (Key × FixVal)) (ig ij : List Key) (cs : List Commit)
    (is : List Issue) (c : Commit) (hc : c ∈ cs) (h : Key)
    (hm : revertSearch c.message = some h) :
    (h ∈ hexshas cs →
      c.hexsha ∈ (validateRun f ig ij cs is).skip ∧
      h ∈ (validateRun f ig ij cs is).skip ∧
      (fixupIds (lookupFix f c.hexsha) = none →
        ¬ InIndex (validateRun f ig ij cs is).idx c) ∧
      (∀ d ∈ cs, d.hexsha = h → fixupIds (lookupFix f d.hexsha) = none →
        ¬ InIndex (validateRun f ig ij cs is).idx d)) ∧
    (h ∉ hexshas cs → ∀ acc, revertStep cs acc c = acc) := by
  constructor
  · intro hp
    obtain ⟨hcs, hhs⟩ := revert_mem_toSkip ig cs c hc h hm hp
    refine ⟨by rw [validateRun_skip]; exact hcs, by rw [validateRun_skip]; exact hhs, ?_, ?_⟩
    · intro hf
      rw [validateRun_idx]
      unfold buildIndex
      exact not_inIndex_foldl_steps f (toSkip ig cs) cs c hf hcs _ (not_inIndex_nil c)
    · intro d hd hdh hf
      rw [validateRun_idx]
      unfold buildIndex
      exact not_inIndex_foldl_steps f (toSkip ig cs) cs d hf (hdh.symm ▸ hhs) _
        (not_inIndex_nil d)
  · intro hp acc
    exact revertStep_miss cs acc c h hm hp

/-- Witness for C2's amended theorem at a concrete input: `aa` reverts the
present commit `bb`, there are no fixups, and both are skipped and
unindexed. -/
theorem C2_witness :
    (⟨"aa".toList, "This reverts commit bb".toList⟩ : Commit) ∈
      [⟨"aa".toList, "This reverts commit bb".toList⟩,
       (⟨"bb".toList, "fix stuff".toList⟩ : Commit)] ∧
    revertSearch "This reverts commit bb".toList = some "bb".toList ∧
    "aa".toList ∈ (validateRun [] [] []
      [⟨"aa".toList, "This reverts commit bb".toList⟩,
       ⟨"bb".toList, "fix stuff".toList⟩] []).skip ∧
    "bb".toList ∈ (validateRun [] [] []
      [⟨"aa".toList, "This reverts commit bb".toList⟩,
       ⟨"bb".toList, "fix stuff".toList⟩] []).skip ∧
    ¬ InIndex (validateRun [] [] []
      [⟨"aa".toList, "This reverts commit bb".toList⟩,
       ⟨"bb".toList, "fix stuff".toList⟩] []).idx
      ⟨"aa".toList, "This reverts commit bb".toList⟩ ∧
    ¬ InIndex (validateRun [] [] []
      [⟨"aa".toList, "This reverts commit bb".toList⟩,
       ⟨"bb".toList, "fix stuff".toList⟩] []).idx
      ⟨"bb".toList, "fix stuff".toList⟩ := by
  have h := C2_theorem [] [] []
    [⟨"aa".toList, "This reverts commit bb".toList⟩,
     ⟨"bb".toList, "fix stuff".toList⟩] []
    ⟨"aa".toList, "This reverts commit bb".toList⟩ (by decide) "bb".toList (by decide)
  have h2 := h.1 (by decide)
  exact ⟨by decide, by decide, h2.1, h2.2.1, h2.2.2.1 (by decide),
    h2.2.2.2 ⟨"bb".toList, "fix stuff".toList⟩ (by decide) (by decide) (by decide)⟩

/-- Claim C3, counterexample: the fallback key for a revert-pattern match is
group 0 of the match — the whole text "This reverts commit dead" — not the
referenced identifier "dead": the index has no entry for "dead" while the
commit sits under the full matched text. -/
theorem C3_counterexample :
    issueMatch "This reverts commit dead".toList = none ∧
    revertMatchAt "This reverts commit dead".toList = some "dead".toList ∧
    lookupIdx (validateRun [] [] []
      [⟨"cc".toList, "This reverts commit dead".toList⟩] []).idx "dead".toList = [] ∧
    (⟨"cc".toList, "This reverts commit dead".toList⟩ : Commit) ∈
      lookupIdx (validateRun [] [] []
        [⟨"cc".toList, "This reverts commit dead".toList⟩] []).idx
        (revertLit ++ "dead".toList) := by decide

/-- Claim C3, amended: a commit with no fixup entry, not in the skip set,
whose message does not start with an issue key but does match the anchored
revert pattern, is indexed under the whole matched revert text
(`"This reverts commit " ++ hex`), i.e. group 0 of the match, not under the
bare hex identifier. -/
theorem C3_theorem (f : List (Key × FixVal)) (ig ij : List Key) (cs : List Commit)
    (is : List Issue) (c : Commit) (hc : c ∈ cs)
    (hf : fixupIds (lookupFix f c.hexsha) = none)
    (hs : c.hexsha ∉ (validateRun f ig ij cs is).skip)
    (hno : issueMatch c.message = none) (hex : Key)
    (hr : revertMatchAt c.message = some hex) :
    c ∈ lookupIdx (validateRun f ig ij cs is).idx (revertLit ++ hex) := by
  rw [validateRun_skip] at hs
  rw [validateRun_idx]
  obtain ⟨l1, l2, rfl⟩ := List.append_of_mem hc
  rw [buildIndex_split]
  rw [indexStep_revert f _ _ c hex hf hs hno hr]
  apply mem_lookupIdx_foldl_steps
  exact lookupIdx_upsert_self _ _ c

/-- Witness for C3's amended theorem at a concrete input: the lone commit
`cc` reverting the absent identifier `dd` is indexed under the full matched
text. -/
theorem C3_witness :
    (⟨"cc".toList, "This reverts commit dd".toList⟩ : Commit) ∈
      [(⟨"cc".toList, "This reverts commit dd".toList⟩ : Commit)] ∧
    revertMatchAt "This reverts commit dd".toList = some "dd".toList ∧
    (⟨"cc".toList, "This reverts commit dd".toList⟩ : Commit) ∈
      lookupIdx (validateRun [] [] []
        [⟨"cc".toList, "This reverts commit dd".toList⟩] []).idx
        (revertLit ++ "dd".toList) :=
  ⟨by decide, by decide,
    C3_theorem [] [] [] [⟨"cc".toList, "This reverts commit dd".toList⟩] []
      ⟨"cc".toList, "This reverts commit dd".toList⟩ (by decide) (by decide)
      (by decide) (by decide) "dd".toList (by decide)⟩

/-- Claim C4: a commit whose identifier is in the skip set but that has a
fixup entry resolving to issue keys is nevertheless appended to the commit
index under each of those keys; skip-set membership never suppresses a
fixup-directed association. -/
theorem C4_theorem (f : List (Key × FixVal)) (ig ij : List Key) (cs : List Commit)
    (is : List Issue) (c : Commit) (hc : c ∈ cs) (ids : List Key)
    (hf : fixupIds (lookupFix f c.hexsha) = some ids)
    (hs : c.hexsha ∈ (validateRun f ig ij cs is).skip) :
    ∀ k ∈ ids, c ∈ lookupIdx (validateRun f ig ij cs is).idx k := by
  intro k hk
  rw [validateRun_idx]
  obtain ⟨l1, l2, rfl⟩ := List.append_of_mem hc
  rw [buildIndex_split]
  rw [indexStep_fix f _ _ c ids hf]
  apply mem_lookupIdx_foldl_steps
  exact lookupIdx_foldl_upsert_self ids c k hk _

/-- Witness for C4 at a concrete input: a merge commit (hence in the skip
set) with a two-key fixup is indexed under the second fixup key. -/
theorem C4_witness :
    fixupIds (lookupFix [("mm".toList,
      FixVal.several ["HADOOP-1".toList, "YARN-2".toList])] "mm".toList) =
      some ["HADOOP-1".toList, "YARN-2".toList] ∧
    "mm".toList ∈ (validateRun
      [("mm".toList, FixVal.several ["HADOOP-1".toList, "YARN-2".toList])] [] []
      [⟨"mm".toList, "Merge branch ".toList ++ quoteChar :: "a".toList ++
        quoteChar :: " into b".toList⟩] []).skip ∧
    (⟨"mm".toList, "Merge branch ".toList ++ quoteChar :: "a".toList ++
      quoteChar :: " into b".toList⟩ : Commit) ∈
      lookupIdx (validateRun
        [("mm".toList, FixVal.several ["HADOOP-1".toList, "YARN-2".toList])] [] []
        [⟨"mm".toList, "Merge branch ".toList ++ quoteChar :: "a".toList ++
          quoteChar :: " into b".toList⟩] []).idx "YARN-2".toList :=
  ⟨by decide, by decide,
    C4_theorem [("mm".toList, FixVal.several ["HADOOP-1".toList, "YARN-2".toList])] [] []
      [⟨"mm".toList, "Merge branch ".toList ++ quoteChar :: "a".toList ++
        quoteChar :: " into b".toList⟩] []
      ⟨"mm".toList, "Merge branch ".toList ++ quoteChar :: "a".toList ++
        quoteChar :: " into b".toList⟩ (by decide)
      ["HADOOP-1".toList, "YARN-2".toList] (by decide) (by decide)
      "YARN-2".toList (by decide)⟩

/-- Claim C5: the validate operation returns a non-zero value exactly when
the sum of the sizes of the three discrepancy categories (unidentified
commits, issues missing commits, commits missing issues) is positive, and
zero exactly when that sum is zero. -/
theorem C5_theorem (f : List (Key × FixVal)) (ig ij : List Key) (cs : List Commit)
    (is : List Issue) :
    ((validateRun f ig ij cs is).ret ≠ 0 ↔
      0 < (validateRun f ig ij cs is).unid.length + (validateRun f ig ij cs is).imc.length +
        (validateRun f ig ij cs is).cmi.length) ∧
    ((validateRun f ig ij cs is).ret = 0 ↔
      (validateRun f ig ij cs is).unid.length + (validateRun f ig ij cs is).imc.length +
        (validateRun f ig ij cs is).cmi.length = 0) := by
  rw [validateRun_ret f ig ij cs is]
  rcases Nat.eq_zero_or_pos ((validateRun f ig ij cs is).unid.length +
    (validateRun f ig ij cs is).imc.length + (validateRun f ig ij cs is).cmi.length)
    with h | h
  · rw [if_neg (by omega)]
    exact ⟨⟨fun h2 => absurd rfl h2, fun h2 => by omega⟩, ⟨fun _ => h, fun _ => rfl⟩⟩
  · rw [if_pos (by omega)]
    exact ⟨⟨fun _ => h, fun _ => one_ne_zero⟩,
      ⟨fun h2 => absurd h2 one_ne_zero, fun h2 => by omega⟩⟩

/-- Claim C6: for every label set, the computed new label set is the old one
with "3.0.0-alpha1" added when not already present and every occurrence of
"3.0.0-alpha2" removed, all other labels unchanged; in particular
a set holding only "2.7.0" gains "3.0.0-alpha1", and a set holding
"3.0.0-alpha1" and "3.0.0-alpha2" keeps only "3.0.0-alpha1". -/
theorem C6_theorem (vs : List Key) :
    (∀ x, x ∈ updateFixVersions vs ↔ x = alpha1 ∨ (x ∈ vs ∧ x ≠ alpha2)) ∧
    updateFixVersions ["2.7.0".toList] = ["2.7.0".toList, alpha1] ∧
    updateFixVersions [alpha1, alpha2] = [alpha1] :=
  ⟨mem_updateFixVersions vs, by decide, by decide⟩

/-- Claim C7: the release-label transformation is idempotent — applying the
update rule to its own output yields the same list, so a second run over
unchanged tracker state computes an after set identical to its before set. -/
theorem C7_theorem (vs : List Key) :
    updateFixVersions (updateFixVersions vs) = updateFixVersions vs := by
  have h1 : alpha1 ∈ updateFixVersions vs :=
    (mem_updateFixVersions vs alpha1).mpr (Or.inl rfl)
  show (if alpha1 ∈ updateFixVersions vs then updateFixVersions vs
      else updateFixVersions vs ++ [alpha1]).filter (fun v => !(decide (v = alpha2))) =
    updateFixVersions vs
  rw [if_pos h1]
  show ((if alpha1 ∈ vs then vs else vs ++ [alpha1]).filter
      (fun v => !(decide (v = alpha2)))).filter (fun v => !(decide (v = alpha2))) =
    updateFixVersions vs
  rw [filter_idem]
  rfl

/-- Claim C8: every issue key declared by a fixup entry is registered as a
known issue key, so a fixup-declared key present in the commit index never
appears among the commits-missing-issues keys, even when no queried issue
has that key. -/
theorem C8_theorem (f : List (Key × FixVal)) (ig ij : List Key) (cs : List Commit)
    (is : List Issue) (k : Key) (hk : k ∈ fixupKeys f)
    (_hik : hasKey (validateRun f ig ij cs is).idx k = true) :
    k ∈ knownIssueKeys f is ∧
    k ∉ (validateRun f ig ij cs is).cmi.map (fun p => p.1) := by
  constructor
  · exact List.mem_append_left _ hk
  · intro hmem
    rw [validateRun_cmi] at hmem
    obtain ⟨p, hp, hpk⟩ := List.mem_map.mp hmem
    have h2 := (List.mem_filter.mp hp).2
    simp only [Bool.not_eq_true', decide_eq_false_iff_not] at h2
    exact h2 (hpk.symm ▸ List.mem_append_left _ hk)

/-- Witness for C8 at a concrete input: the fixup-declared key `HADOOP-3`
is indexed (via the fixup) and absent from the queried issues, yet it is
known and not reported as a commit missing its issue. -/
theorem C8_witness :
    "HADOOP-3".toList ∈ fixupKeys [("aa".toList, FixVal.one "HADOOP-3".toList)] ∧
    hasKey (validateRun [("aa".toList, FixVal.one "HADOOP-3".toList)] [] []
      [⟨"aa".toList, "junk msg".toList⟩] []).idx "HADOOP-3".toList = true ∧
    ("HADOOP-3".toList ∈
      knownIssueKeys [("aa".toList, FixVal.one "HADOOP-3".toList)] [] ∧
    "HADOOP-3".toList ∉ (validateRun [("aa".toList, FixVal.one "HADOOP-3".toList)] [] []
      [⟨"aa".toList, "junk msg".toList⟩] []).cmi.map (fun p => p.1)) :=
  ⟨by decide, by decide,
    C8_theorem [("aa".toList, FixVal.one "HADOOP-3".toList)] [] []
      [⟨"aa".toList, "junk msg".toList⟩] [] "HADOOP-3".toList
      (by decide) (by decide)⟩

/-- Claim C9, counterexample: an ignored commit identifier is not excluded
from reconciliation for every possible fixup map — with a fixup entry the
ignored commit `xx` is still indexed under the fixup key. -/
theorem C9_counterexample :
    "xx".toList ∈ (["xx".toList] : List Key) ∧
    InIndex (validateRun [("xx".toList, FixVal.one "HADOOP-7".toList)] ["xx".toList] []
      [⟨"xx".toList, "some change".toList⟩] []).idx
      ⟨"xx".toList, "some change".toList⟩ := by decide

/-- Claim C9, amended: a commit whose identifier is in the ignore set and
that has no fixup entry is excluded from reconciliation entirely: it is not
indexed under any issue key, not counted as unidentified, and not attached
to any commits-missing-issues entry. -/
theorem C9_theorem (f : List (Key × FixVal)) (ig ij : List Key) (cs : List Commit)
    (is : List Issue) (c : Commit) (_hc : c ∈ cs) (hig : c.hexsha ∈ ig)
    (hf : fixupIds (lookupFix f c.hexsha) = none) :
    ¬ InIndex (validateRun f ig ij cs is).idx c ∧
    c ∉ (validateRun f ig ij cs is).unid ∧
    ∀ p ∈ (validateRun f ig ij cs is).cmi, c ∉ p.2 := by
  have hs : c.hexsha ∈ toSkip ig cs := mem_toSkip_of_mem_ignore ig cs c.hexsha hig
  have hidx : ¬ InIndex (validateRun f ig ij cs is).idx c := by
    rw [validateRun_idx]
    unfold buildIndex
    exact not_inIndex_foldl_steps f (toSkip ig cs) cs c hf hs _ (not_inIndex_nil c)
  refine ⟨hidx, ?_, ?_⟩
  · rw [validateRun_unid]
    unfold buildIndex
    exact not_mem_unid_foldl_steps f (toSkip ig cs) cs c hf hs _ (List.not_mem_nil c)
  · intro p hp hcp
    apply hidx
    rw [validateRun_idx]
    rw [validateRun_cmi] at hp
    exact ⟨p, List.mem_of_mem_filter hp, hcp⟩

/-- Witness for C9's amended theorem at a concrete input: the ignored commit
`zz` with no fixup entry appears in no bucket. -/
theorem C9_witness :
    "zz".toList ∈ (["zz".toList] : List Key) ∧
    (¬ InIndex (validateRun [] ["zz".toList] []
      [⟨"zz".toList, "plain text".toList⟩] []).idx ⟨"zz".toList, "plain text".toList⟩ ∧
    (⟨"zz".toList, "plain text".toList⟩ : Commit) ∉ (validateRun [] ["zz".toList] []
      [⟨"zz".toList, "plain text".toList⟩] []).unid ∧
    ∀ p ∈ (validateRun [] ["zz".toList] []
      [⟨"zz".toList, "plain text".toList⟩] []).cmi,
      (⟨"zz".toList, "plain text".toList⟩ : Commit) ∉ p.2) :=
  ⟨by decide,
    C9_theorem [] ["zz".toList] [] [⟨"zz".toList, "plain text".toList⟩] []
      ⟨"zz".toList, "plain text".toList⟩ (by decide) (by decide) (by decide)⟩

/-- Claim C10: an issue key in the ignore-jiras list is suppressed only from
the issues-missing-commits category: the skip set, the commit index, the
unidentified list and the commits-missing-issues list are identical to a
run with an empty ignore-jiras list, while a queried issue with an ignored
key never appears among the issues missing commits. -/
theorem C10_theorem (f : List (Key × FixVal)) (ig ij : List Key) (cs : List Commit)
    (is : List Issue) (i : Issue) (_hi : i ∈ is) (hk : i.key ∈ ij) :
    (validateRun f ig ij cs is).skip = (validateRun f ig [] cs is).skip ∧
    (validateRun f ig ij cs is).idx = (validateRun f ig [] cs is).idx ∧
    (validateRun f ig ij cs is).unid = (validateRun f ig [] cs is).unid ∧
    (validateRun f ig ij cs is).cmi = (validateRun f ig [] cs is).cmi ∧
    i ∉ (validateRun f ig ij cs is).imc := by
  refine ⟨rfl, rfl, rfl, rfl, ?_⟩
  intro hmem
  rw [validateRun_imc] at hmem
  have h2 := (List.mem_filter.mp hmem).2
  simp only [Bool.and_eq_true, Bool.not_eq_true', decide_eq_false_iff_not] at h2
  exact h2.2 hk

/-- Witness for C10 at a concrete input: the queried issue `YARN-9`, whose
key is in the ignore-jiras list and which has no matching commit, is not
reported as missing commits, and the other buckets equal the run without
the ignore-jiras list. -/
theorem C10_witness :
    (⟨"YARN-9".toList⟩ : Issue) ∈ [(⟨"YARN-9".toList⟩ : Issue)] ∧
    "YARN-9".toList ∈ (["YARN-9".toList] : List Key) ∧
    ((validateRun [] [] ["YARN-9".toList] [] [⟨"YARN-9".toList⟩]).skip =
      (validateRun [] [] [] [] [⟨"YARN-9".toList⟩]).skip ∧
    (validateRun [] [] ["YARN-9".toList] [] [⟨"YARN-9".toList⟩]).idx =
      (validateRun [] [] [] [] [⟨"YARN-9".toList⟩]).idx ∧
    (validateRun [] [] ["YARN-9".toList] [] [⟨"YARN-9".toList⟩]).unid =
      (validateRun [] [] [] [] [⟨"YARN-9".toList⟩]).unid ∧
    (validateRun [] [] ["YARN-9".toList] [] [⟨"YARN-9".toList⟩]).cmi =
      (validateRun [] [] [] [] [⟨"YARN-9".toList⟩]).cmi ∧
    (⟨"YARN-9".toList⟩ : Issue) ∉
      (validateRun [] [] ["YARN-9".toList] [] [⟨"YARN-9".toList⟩]).imc) :=
  ⟨by decide, by decide,
    C10_theorem [] [] ["YARN-9".toList] [] [⟨"YARN-9".toList⟩] ⟨"YARN-9".toList⟩
      (by decide) (by decide)⟩

example : revertSearch "Fix. This reverts commit ab12ff.".toList = some "ab12ff".toList := by decide
example : revertMatchAt "Fix. This reverts commit ab12ff.".toList = none := by decide
example : revertMatchAt "This reverts commit ab12ff.".toList = some "ab12ff".toList := by decide
example : issueMatch "HADOOP-1234. Fix a thing".toList = some "HADOOP-1234".toList := by decide
example : issueMatch "x HADOOP-1234".toList = none := by decide
example : mergeSearch ("Merge branch ".toList ++ quoteChar :: "feature".toList ++ quoteChar :: " into trunk".toList) = true := by decide
example : mergeSearch "Merge branch into trunk".toList = false := by decide
example : updateFixVersions ["2.7.0".toList] = ["2.7.0".toList, alpha1] := by decide
example : updateFixVersions [alpha1, alpha2] = [alpha1] := by decide
